import Mathlib

/-!
Shallow embedding of the ObfuscateZero LLVM pass
(src/llvm-passes/ObfuscateZero/ObfuscateZero.cpp).

The pass walks one basic block, replaces eligible zero-constant operands by a
mixed boolean/arithmetic expression `(p1 * ((x & 7 | a1)^2)) == (p2 * ((y & 7 | a2)^2))`
zero-extended to the operand type, keeps a pool (`IntegerVect`) of the
integer-typed values seen so far, and reports whether anything changed.

The host IR (LLVM) is modelled by a small closed data model: a type tag, a
constant, a value (constant or SSA register), and an instruction with an
opcode, a result register, a result type and an operand list.  IRBuilder
`Create*` calls are modelled, per the external-interface contract, as each
producing a fresh instruction inserted immediately before the current one.
`std::uniform_int_distribution<size_t>(a, b)` applied to the engine is
modelled as `a + r % (b - a + 1)` for the next raw draw `r` of an abstract
stream of naturals.  Machine arithmetic of the synthesized expression is
modelled on `Nat` with explicit `% 2^32`.
-/

namespace ObfuscateZero

/-- Type tags of the host IR that the pass distinguishes: integer of width
`w`, pointer, floating point, and everything else. -/
inductive Ty where
  | int : Nat → Ty
  | ptr : Ty
  | float : Ty
  | other : Ty
deriving DecidableEq, Repr

/-- `Type::isIntegerTy`. -/
def Ty.isIntegerTy : Ty → Bool
  | .int _ => true
  | _ => false

/-- `isa<PointerType>`. -/
def Ty.isPointerTy : Ty → Bool
  | .ptr => true
  | _ => false

/-- `Type::isFloatingPointTy`. -/
def Ty.isFloatingPointTy : Ty → Bool
  | .float => true
  | _ => false

/-- Compile-time constants: an integer constant of a width with a value, a
pointer constant (flag: is it null), a floating-point constant (flag: is it
zero) and any other constant (flag: is it the all-zero value). -/
inductive Constant where
  | intC : Nat → Nat → Constant
  | ptrC : Bool → Constant
  | fpC : Bool → Constant
  | aggC : Bool → Constant
deriving DecidableEq, Repr

/-- `Constant::getType`. -/
def Constant.getType : Constant → Ty
  | .intC w _ => .int w
  | .ptrC _ => .ptr
  | .fpC _ => .float
  | .aggC _ => .other

/-- `Constant::isNullValue`: the all-zero-bits value of the type. -/
def Constant.isNullValue : Constant → Bool
  | .intC w v => v % 2 ^ w == 0
  | .ptrC b => b
  | .fpC b => b
  | .aggC b => b

/-- A `Value`: either a constant or an SSA register (the result of an
instruction), identified by a numeric id and carrying its type. -/
inductive Value where
  | const : Constant → Value
  | reg : Nat → Ty → Value
deriving DecidableEq, Repr

/-- `Value::getType`. -/
def Value.getType : Value → Ty
  | .const c => c.getType
  | .reg _ t => t

/-- Instruction kinds the pass distinguishes (`isa<GetElementPtrInst>`,
`isa<SwitchInst>`, `isa<CallInst>`, PHI nodes skipped by
`getFirstInsertionPt`), the builder-created kinds, and an `other` catch-all
for the open-ended remaining instruction set. -/
inductive Opcode where
  | getElementPtr : Opcode
  | switchInst : Opcode
  | callInst : Opcode
  | phi : Opcode
  | zextOrTrunc : Opcode
  | andB : Opcode
  | orB : Opcode
  | mul : Opcode
  | icmpEq : Opcode
  | zext : Opcode
  | other : Nat → Opcode
deriving DecidableEq, Repr

/-- An instruction: opcode, result register id, result type, operand list.
Operand values may be overwritten; identity (result id) is preserved. -/
structure Instruction where
  opcode : Opcode
  result : Nat
  retTy : Ty
  operands : List Value
deriving DecidableEq, Repr

/-- The `Value` under which an instruction is seen when used as an operand or
registered into the pool: its result register. -/
def resVal (i : Instruction) : Value :=
  Value.reg i.result i.retTy

/-- `ObfuscateZero::isValidCandidateInstruction`: reject GEP, switch and
call instructions, accept everything else. -/
def isValidCandidateInstruction (inst : Instruction) : Bool :=
  match inst.opcode with
  | .getElementPtr => false
  | .switchInst => false
  | .callInst => false
  | _ => true

/-- `ObfuscateZero::isValidCandidateOperand`: a constant whose type is not a
pointer, not floating point, and whose value is the null value. -/
def isValidCandidateOperand (v : Value) : Option Constant :=
  match v with
  | .const c =>
    if c.getType.isPointerTy then none
    else if c.getType.isFloatingPointTy then none
    else if c.isNullValue then some c
    else none
  | _ => none

/-! Section: Arithmetic of the synthesized expression

Value-level semantics of the chain built in `replaceZero`, on `Nat` with
explicit reduction modulo `2^32` (the `IntermediaryType`).  `x` and `y` are
the two pool ingredients after `CreateZExtOrTrunc` to 32 bits, `a1` and `a2`
the constants `any1`, `any2`. -/

/-- Width of the `IntermediaryType` (`uint32_t`, 32 bits). -/
def W32 : Nat := 2 ^ 32

/-- `CreateZExtOrTrunc(value, i32)`: the ingredient reduced to 32 bits. -/
def lhsCast (x : Nat) : Nat := x % W32

/-- `CreateAnd(LhsCast, 0x7)`. -/
def lhsAnd (x : Nat) : Nat := lhsCast x &&& 7

/-- `CreateOr(LhsAnd, any1)`. -/
def lhsOr (x a : Nat) : Nat := lhsAnd x ||| a

/-- `CreateMul(LhsOr, LhsOr)` in 32-bit arithmetic. -/
def lhsSquare (x a : Nat) : Nat := lhsOr x a * lhsOr x a % W32

/-- `CreateMul(LhsSquare, prime1)` in 32-bit arithmetic, `prime1 = 431`. -/
def lhsTot (x a : Nat) : Nat := lhsSquare x a * 431 % W32

/-- `CreateZExtOrTrunc` on the right-hand ingredient. -/
def rhsCast (y : Nat) : Nat := y % W32

/-- `CreateAnd(RhsCast, 0x7)`. -/
def rhsAnd (y : Nat) : Nat := rhsCast y &&& 7

/-- `CreateOr(RhsAnd, any2)`. -/
def rhsOr (y a : Nat) : Nat := rhsAnd y ||| a

/-- `CreateMul(RhsOr, RhsOr)` in 32-bit arithmetic. -/
def rhsSquare (y a : Nat) : Nat := rhsOr y a * rhsOr y a % W32

/-- `CreateMul(RhsSquare, prime2)` in 32-bit arithmetic, `prime2 = 277`. -/
def rhsTot (y a : Nat) : Nat := rhsSquare y a * 277 % W32

/-- `CreateICmp(ICMP_EQ, LhsTot, RhsTot)` followed by `CreateZExt` to the
replaced operand's integer type: the runtime value of the replacement. -/
def obfValue (x y a1 a2 : Nat) : Nat :=
  if lhsTot x a1 = rhsTot y a2 then 1 else 0

/-! Section: Pass state, random draws and the builder -/

/-- The mutable state of the pass object: `IntegerVect` (the value pool), an
abstract stream of raw draws standing for `std::default_random_engine`
together with the position of the next draw, and a supply of fresh SSA ids
for builder-created instructions. -/
structure ObfState where
  integerVect : List Value
  gen : Nat → Nat
  cursor : Nat
  fresh : Nat

/-- One raw draw of the engine: the next element of the stream. -/
def draw (st : ObfState) : Nat × ObfState :=
  (st.gen st.cursor, { st with cursor := st.cursor + 1 })

/-- `std::uniform_int_distribution(a, b)` applied to the engine, modelled as
`a + r % (b - a + 1)` for the next raw draw `r`: a value in `[a, b]`. -/
def uniformInt (a b : Nat) (st : ObfState) : Nat × ObfState :=
  let d := draw st
  (a + d.1 % (b - a + 1), d.2)

/-- `ObfuscateZero::registerInteger`: append the value to `IntegerVect`
exactly when its type is an integer type. -/
def registerInteger (v : Value) (st : ObfState) : ObfState :=
  if v.getType.isIntegerTy then
    { st with integerVect := st.integerVect ++ [v] }
  else st

/-- One `IRBuilder::Create*` call (external-interface contract of the spec):
produce a fresh instruction, to be inserted immediately before the current
instruction, and its result value. -/
def build (op : Opcode) (ops : List Value) (ty : Ty) (st : ObfState) :
    Value × Instruction × ObfState :=
  (Value.reg st.fresh ty, ⟨op, st.fresh, ty, ops⟩, { st with fresh := st.fresh + 1 })

/-- Default value used for the (already bounds-checked) `IntegerVect.at`
accesses. -/
def defaultVal : Value := Value.const (Constant.intC 32 0)

/-- Result of `replaceZero`: the replacement value if any, the instructions
inserted before the current instruction (in order), and the updated state. -/
structure RZResult where
  result : Option Value
  inserted : List Instruction
  state : ObfState

/-- `ObfuscateZero::replaceZero`: abort if the pool is empty; otherwise draw
two pool indices and two `any` constants, build the twelve-instruction chain
(cast, mask, or, square, times prime on each side; equality compare; zero
extend to the replaced operand's type), registering every built value, and
return the final cast value. -/
def replaceZero (vrep : Value) (st0 : ObfState) : RZResult :=
  let replacedType := vrep.getType
  let intermediaryType := Ty.int 32
  if st0.integerVect.length < 1 then ⟨none, [], st0⟩
  else
    let d1 := uniformInt 0 (st0.integerVect.length - 1) st0
    let index1 := d1.1
    let d2 := uniformInt 0 (st0.integerVect.length - 1) d1.2
    let index2 := d2.1
    let d3 := uniformInt 1 10 d2.2
    let d4 := uniformInt 1 10 d3.2
    let any1 := Value.const (Constant.intC 32 (1 + d3.1))
    let any2 := Value.const (Constant.intC 32 (1 + d4.1))
    let prime1 := Value.const (Constant.intC 32 431)
    let prime2 := Value.const (Constant.intC 32 277)
    let overflowMaskLHS := Value.const (Constant.intC 32 7)
    let overflowMaskRHS := Value.const (Constant.intC 32 7)
    let b1 := build .zextOrTrunc [st0.integerVect.getD index1 defaultVal] intermediaryType d4.2
    let s1 := registerInteger b1.1 b1.2.2
    let b2 := build .andB [b1.1, overflowMaskLHS] intermediaryType s1
    let s2 := registerInteger b2.1 b2.2.2
    let b3 := build .orB [b2.1, any1] intermediaryType s2
    let s3 := registerInteger b3.1 b3.2.2
    let b4 := build .mul [b3.1, b3.1] intermediaryType s3
    let s4 := registerInteger b4.1 b4.2.2
    let b5 := build .mul [b4.1, prime1] intermediaryType s4
    let s5 := registerInteger b5.1 b5.2.2
    let b6 := build .zextOrTrunc [s5.integerVect.getD index2 defaultVal] intermediaryType s5
    let s6 := registerInteger b6.1 b6.2.2
    let b7 := build .andB [b6.1, overflowMaskRHS] intermediaryType s6
    let s7 := registerInteger b7.1 b7.2.2
    let b8 := build .orB [b7.1, any2] intermediaryType s7
    let s8 := registerInteger b8.1 b8.2.2
    let b9 := build .mul [b8.1, b8.1] intermediaryType s8
    let s9 := registerInteger b9.1 b9.2.2
    let b10 := build .mul [b9.1, prime2] intermediaryType s9
    let s10 := registerInteger b10.1 b10.2.2
    let b11 := build .icmpEq [b5.1, b10.1] (Ty.int 1) s10
    let s11 := registerInteger b11.1 b11.2.2
    let b12 := build .zext [b11.1] replacedType s11
    let s12 := registerInteger b12.1 b12.2.2
    ⟨some b12.1,
     [b1.2.1, b2.2.1, b3.2.1, b4.2.1, b5.2.1, b6.2.1, b7.2.1, b8.2.1,
      b9.2.1, b10.2.1, b11.2.1, b12.2.1],
     s12⟩

/-! Section: The block driver -/

/-- Result of processing the operand list of one instruction: the new
operand list, the instructions inserted before it, whether any operand was
overwritten, and the updated state. -/
structure OpsResult where
  newOps : List Value
  inserted : List Instruction
  modified : Bool
  state : ObfState

/-- The inner operand loop of `runOnBasicBlock`: for each operand in turn,
if `isValidCandidateOperand` matches, call `replaceZero`; on success store
the new value (`setOperand`) and set `modified`; otherwise keep the operand. -/
def processOps : List Value → ObfState → OpsResult
  | [], st => ⟨[], [], false, st⟩
  | v :: rest, st =>
    match isValidCandidateOperand v with
    | some _ =>
      let r := replaceZero v st
      match r.result with
      | some newVal =>
        let t := processOps rest r.state
        ⟨newVal :: t.newOps, r.inserted ++ t.inserted, true, t.state⟩
      | none =>
        let t := processOps rest r.state
        ⟨v :: t.newOps, r.inserted ++ t.inserted, t.modified, t.state⟩
    | none =>
      let t := processOps rest st
      ⟨v :: t.newOps, t.inserted, t.modified, t.state⟩

/-- Operand processing of one instruction: the loop runs only when
`isValidCandidateInstruction` accepts the instruction. -/
def processOperandsAll (inst : Instruction) (st : ObfState) : OpsResult :=
  if isValidCandidateInstruction inst then processOps inst.operands st
  else ⟨inst.operands, [], false, st⟩

/-- Result of the block loop: the rewritten block (inserted instructions in
place, each immediately before its consumer), whether anything changed, and
the final state. -/
structure BlockResult where
  block : List Instruction
  modified : Bool
  state : ObfState

/-- The instruction loop of `runOnBasicBlock`, on the instructions from the
first insertion point onward: process each instruction's operands, then
`registerInteger(Inst)` the instruction's own result, and continue. -/
def runOnBody : List Instruction → ObfState → BlockResult
  | [], st => ⟨[], false, st⟩
  | inst :: rest, st =>
    let p := processOperandsAll inst st
    let st2 := registerInteger (resVal inst) p.state
    let r := runOnBody rest st2
    ⟨p.inserted ++ { inst with operands := p.newOps } :: r.block,
     p.modified || r.modified, r.state⟩

/-- Is this instruction a PHI node? `BasicBlock::getFirstInsertionPt` starts
iteration after the leading PHI nodes. -/
def isPhi (inst : Instruction) : Bool :=
  inst.opcode == Opcode.phi

/-- `ObfuscateZero::runOnBasicBlock`: clear `IntegerVect`, then loop from the
first insertion point (after the leading PHI nodes, which stay untouched) to
the end of the block, and report whether anything was modified. -/
def runOnBasicBlock (bb : List Instruction) (st : ObfState) : BlockResult :=
  let st1 : ObfState := { st with integerVect := [] }
  let r := runOnBody (bb.dropWhile isPhi) st1
  ⟨bb.takeWhile isPhi ++ r.block, r.modified, r.state⟩

/-- Ghost decomposition of `runOnBody`: the block, modified flag and state
after processing only the first `k` instructions of the body.  `runOnBody`
coincides with `runSteps` at `k` = the body length; intermediate `k` exposes
the state at the moment the `k`-th instruction is about to be processed. -/
def runSteps : List Instruction → ObfState → Nat → BlockResult
  | _, st, 0 => ⟨[], false, st⟩
  | [], st, _ + 1 => ⟨[], false, st⟩
  | inst :: rest, st, k + 1 =>
    let p := processOperandsAll inst st
    let st2 := registerInteger (resVal inst) p.state
    let r := runSteps rest st2 k
    ⟨p.inserted ++ { inst with operands := p.newOps } :: r.block,
     p.modified || r.modified, r.state⟩

/-- A value is the result register of one of the listed instructions. -/
def definesIn (l : List Instruction) (v : Value) : Prop :=
  ∃ d ∈ l, v = resVal d

/-! Section: Arithmetic helper lemmas for the non-collision property -/

/-- The common shape of both products: `(m ||| a)^2 * p` in 32-bit
arithmetic, where `m` is the masked ingredient. -/
def tot (p m a : Nat) : Nat := (m ||| a) * (m ||| a) % W32 * p % W32

lemma lhsTot_eq_tot (x a : Nat) : lhsTot x a = tot 431 (lhsAnd x) a := rfl

lemma rhsTot_eq_tot (y a : Nat) : rhsTot y a = tot 277 (rhsAnd y) a := rfl

lemma and7_lt_8 (x : Nat) : x &&& 7 < 8 :=
  Nat.lt_succ_of_le Nat.and_le_right

/-- Exhaustive check of the non-collision property over the masked range
(`m < 8`) and the `any` range (`a = b + 2`, `b < 10`). -/
lemma tot_ne : ∀ m1 < 8, ∀ b1 < 10, ∀ m2 < 8, ∀ b2 < 10,
    tot 431 m1 (b1 + 2) ≠ tot 277 m2 (b2 + 2) := by decide

/-- C1. For every pool ingredient pair `x, y` (after the 32-bit cast,
modelled by reduction mod `2^32` inside `lhsCast`/`rhsCast`) and every
`any1, any2` in `[2, 11]`, the two products `431 * ((x &&& 7 ||| any1)^2)`
and `277 * ((y &&& 7 ||| any2)^2)` in 32-bit arithmetic are never equal, so
the synthesized comparison-and-extend expression evaluates to `0`, the zero
of the replaced operand's type; moreover the `1 + RandAny` constants the
code draws always lie in `[2, 11]`. -/
theorem obfuscated_zero_is_zero :
    ∀ x y a1 a2 : Nat, 2 ≤ a1 → a1 ≤ 11 → 2 ≤ a2 → a2 ≤ 11 →
      lhsTot x a1 ≠ rhsTot y a2 ∧ obfValue x y a1 a2 = 0 ∧
      ∀ st : ObfState,
        2 ≤ 1 + (uniformInt 1 10 st).1 ∧ 1 + (uniformInt 1 10 st).1 ≤ 11 := by
  intro x y a1 a2 h1 h2 h3 h4
  have hm1 : lhsAnd x < 8 := and7_lt_8 _
  have hm2 : rhsAnd y < 8 := and7_lt_8 _
  have hb1 : a1 - 2 < 10 := by omega
  have hb2 : a2 - 2 < 10 := by omega
  have hne : lhsTot x a1 ≠ rhsTot y a2 := by
    rw [lhsTot_eq_tot, rhsTot_eq_tot, show a1 = a1 - 2 + 2 by omega,
      show a2 = a2 - 2 + 2 by omega]
    exact tot_ne _ hm1 _ hb1 _ hm2 _ hb2
  refine ⟨hne, by simp [obfValue, hne], ?_⟩
  intro st
  have := Nat.mod_lt (st.gen st.cursor) (show 0 < 10 by norm_num)
  simp only [uniformInt, draw]
  omega

/-- Witness for C1 at a concrete input. -/
theorem obfuscated_zero_is_zero_witness :
    lhsTot 3 2 ≠ rhsTot 12 11 ∧ obfValue 3 12 2 11 = 0 :=
  ⟨(obfuscated_zero_is_zero 3 12 2 11 (by decide) (by decide) (by decide)
      (by decide)).1,
   (obfuscated_zero_is_zero 3 12 2 11 (by decide) (by decide) (by decide)
      (by decide)).2.1⟩

/-- C2. `isValidCandidateOperand` returns `some c` exactly when the
value is the constant `c`, its type is neither pointer nor floating point,
and it is the all-zero value of its type. -/
theorem isValidCandidateOperand_spec :
    ∀ (v : Value) (c : Constant),
      isValidCandidateOperand v = some c ↔
        v = Value.const c ∧ c.getType.isPointerTy = false ∧
          c.getType.isFloatingPointTy = false ∧ c.isNullValue = true := by
  intro v c
  cases v with
  | const c0 =>
    simp only [isValidCandidateOperand]
    split_ifs with h1 h2 h3 <;>
      simp_all [Value.const.injEq] <;>
      rintro rfl <;> simp_all
  | reg i t => simp [isValidCandidateOperand]

/-! Section: Sample data used by the witnesses -/

/-- A concrete raw-draw stream. -/
def zeroStream : Nat → Nat := fun _ => 0

/-- A concrete pass state with an empty pool. -/
def sampleState : ObfState := ⟨[], zeroStream, 0, 100⟩

/-- A concrete pass state whose pool holds one 32-bit register. -/
def samplePoolState : ObfState := ⟨[Value.reg 0 (Ty.int 32)], zeroStream, 0, 100⟩

/-- A concrete call instruction with a zero operand. -/
def callInstr : Instruction :=
  ⟨.callInst, 1, .other, [Value.const (Constant.intC 32 0)]⟩

/-- A concrete PHI instruction with a zero operand. -/
def phiInstr : Instruction :=
  ⟨.phi, 1, Ty.int 32, [Value.const (Constant.intC 32 0)]⟩

/-- If an instruction of the body is rejected by the filter, it survives the
body loop verbatim. -/
lemma runOnBody_mem_invalid :
    ∀ (body : List Instruction) (st : ObfState) (inst : Instruction),
      inst ∈ body → isValidCandidateInstruction inst = false →
      inst ∈ (runOnBody body st).block := by
  intro body
  induction body with
  | nil => intro st inst h; cases h
  | cons i rest ih =>
    intro st inst hmem hval
    rcases List.mem_cons.1 hmem with rfl | hmem
    · simp [runOnBody, processOperandsAll, hval]
    · simp only [runOnBody]
      exact List.mem_append_right _ (List.mem_cons_of_mem _ (ih _ _ hmem hval))

/-- C3. The filter rejects exactly GEP, switch and call instructions,
and a rejected instruction is never mutated: it appears unchanged in the
output of `runOnBasicBlock` for every input block containing it. -/
theorem isValidCandidateInstruction_spec :
    (∀ inst : Instruction, isValidCandidateInstruction inst = false ↔
      (inst.opcode = .getElementPtr ∨ inst.opcode = .switchInst ∨
        inst.opcode = .callInst)) ∧
    ∀ (bb : List Instruction) (st : ObfState) (inst : Instruction),
      inst ∈ bb → isValidCandidateInstruction inst = false →
      inst ∈ (runOnBasicBlock bb st).block := by
  constructor
  · intro inst
    cases h : inst.opcode <;> simp [isValidCandidateInstruction, h]
  · intro bb st inst hmem hval
    rw [← List.takeWhile_append_dropWhile (p := isPhi) (l := bb)] at hmem
    simp only [runOnBasicBlock]
    rcases List.mem_append.1 hmem with hmem | hmem
    · exact List.mem_append_left _ hmem
    · exact List.mem_append_right _ (runOnBody_mem_invalid _ _ _ hmem hval)

/-- Witness for C3: a call instruction with a zero operand survives the pass
unchanged. -/
theorem isValidCandidateInstruction_spec_witness :
    callInstr ∈ [callInstr] ∧ isValidCandidateInstruction callInstr = false ∧
    callInstr ∈ (runOnBasicBlock [callInstr] sampleState).block :=
  ⟨by decide, by decide,
   isValidCandidateInstruction_spec.2 [callInstr] sampleState callInstr
     (by decide) (by decide)⟩

/-- C4. With an empty pool, `replaceZero` returns no replacement and
leaves the state untouched, and the operand loop keeps the original zero
operand and silently continues with the remaining operands. -/
theorem empty_pool_silent_skip :
    ∀ st : ObfState, st.integerVect = [] →
      (∀ vrep, replaceZero vrep st = ⟨none, [], st⟩) ∧
      ∀ (v : Value) (c : Constant) (rest : List Value),
        isValidCandidateOperand v = some c →
        processOps (v :: rest) st =
          ⟨v :: (processOps rest st).newOps, (processOps rest st).inserted,
           (processOps rest st).modified, (processOps rest st).state⟩ := by
  intro st h
  have hrz : ∀ vrep, replaceZero vrep st = ⟨none, [], st⟩ := by
    intro vrep
    simp [replaceZero, h]
  refine ⟨hrz, ?_⟩
  intro v c rest hv
  simp [processOps, hv, hrz v]

/-- Witness for C4 at a concrete empty-pool state and zero operand. -/
theorem empty_pool_silent_skip_witness :
    sampleState.integerVect = [] ∧
    isValidCandidateOperand defaultVal = some (Constant.intC 32 0) ∧
    replaceZero defaultVal sampleState = ⟨none, [], sampleState⟩ ∧
    processOps [defaultVal] sampleState =
      ⟨defaultVal :: (processOps [] sampleState).newOps,
       (processOps [] sampleState).inserted,
       (processOps [] sampleState).modified,
       (processOps [] sampleState).state⟩ :=
  ⟨rfl, rfl, (empty_pool_silent_skip sampleState rfl).1 defaultVal,
   (empty_pool_silent_skip sampleState rfl).2 defaultVal
     (Constant.intC 32 0) [] rfl⟩

/-! Section: Pool characterization lemmas -/

/-- `registerInteger` appends the value exactly when it has integer type. -/
lemma registerInteger_pool (v : Value) (st : ObfState) :
    (registerInteger v st).integerVect =
      st.integerVect ++ (if v.getType.isIntegerTy then [v] else []) := by
  simp only [registerInteger]
  split <;> simp

/-- If `replaceZero` produced no replacement, it did nothing at all. -/
lemma replaceZero_none (v : Value) (st : ObfState)
    (h : (replaceZero v st).result = none) : replaceZero v st = ⟨none, [], st⟩ := by
  by_cases hlen : st.integerVect.length < 1
  · simp [replaceZero, hlen]
  · exfalso
    simp [replaceZero, hlen] at h

/-- A successful replacement value has the type of the replaced operand. -/
lemma replaceZero_some_type (v : Value) (st : ObfState) (nv : Value)
    (h : (replaceZero v st).result = some nv) : nv.getType = v.getType := by
  by_cases hlen : st.integerVect.length < 1
  · simp [replaceZero, hlen] at h
  · simp only [replaceZero, hlen, if_false, build] at h
    cases h
    rfl

/-- A successful replacement inserted at least one instruction. -/
lemma replaceZero_some_inserted (v : Value) (st : ObfState) (nv : Value)
    (h : (replaceZero v st).result = some nv) :
    (replaceZero v st).inserted ≠ [] := by
  by_cases hlen : st.integerVect.length < 1
  · simp [replaceZero, hlen] at h
  · simp [replaceZero, hlen]

lemma getType_reg (i : Nat) (t : Ty) : (Value.reg i t).getType = t := rfl

lemma resVal_setOperands (inst : Instruction) (ops : List Value) :
    resVal { inst with operands := ops } = resVal inst := rfl

lemma uniformInt_snd (a b : Nat) (st : ObfState) :
    (uniformInt a b st).2 = { st with cursor := st.cursor + 1 } := rfl

lemma isIntegerTy_int (w : Nat) : (Ty.int w).isIntegerTy = true := rfl

/-- `replaceZero` grows the pool by exactly the integer-typed results of the
instructions it inserted, in order. -/
lemma replaceZero_state_pool (v : Value) (st : ObfState) :
    (replaceZero v st).state.integerVect =
      st.integerVect ++
        ((replaceZero v st).inserted.map resVal).filter
          (fun u => u.getType.isIntegerTy) := by
  by_cases hlen : st.integerVect.length < 1
  · simp [replaceZero, hlen]
  · cases hty : v.getType.isIntegerTy <;>
      simp [replaceZero, hlen, build, registerInteger, resVal, getType_reg,
        isIntegerTy_int, hty, uniformInt_snd]

/-- The operand loop grows the pool by exactly the integer-typed results of
the instructions it inserted, in order. -/
lemma processOps_state_pool :
    ∀ (ops : List Value) (st : ObfState),
      (processOps ops st).state.integerVect =
        st.integerVect ++
          ((processOps ops st).inserted.map resVal).filter
            (fun u => u.getType.isIntegerTy) := by
  intro ops
  induction ops with
  | nil => intro st; simp [processOps]
  | cons v rest ih =>
    intro st
    cases hv : isValidCandidateOperand v with
    | none => simp [processOps, hv, ih st]
    | some c =>
      cases hr : (replaceZero v st).result with
      | none =>
        have h0 := replaceZero_none v st hr
        simp [processOps, hv, hr, h0, ih st]
      | some nv =>
        simp [processOps, hv, hr, ih (replaceZero v st).state,
          replaceZero_state_pool, List.filter_append, List.append_assoc]

/-- Same statement for the per-instruction wrapper. -/
lemma processOperandsAll_state_pool (inst : Instruction) (st : ObfState) :
    (processOperandsAll inst st).state.integerVect =
      st.integerVect ++
        ((processOperandsAll inst st).inserted.map resVal).filter
          (fun u => u.getType.isIntegerTy) := by
  simp only [processOperandsAll]
  split
  · exact processOps_state_pool inst.operands st
  · simp

/-- After `k` steps of the body loop, the pool is the incoming pool extended
by exactly the integer-typed results of the emitted instructions, in order. -/
lemma runSteps_state_pool :
    ∀ (k : Nat) (body : List Instruction) (st : ObfState),
      (runSteps body st k).state.integerVect =
        st.integerVect ++
          ((runSteps body st k).block.map resVal).filter
            (fun u => u.getType.isIntegerTy) := by
  intro k
  induction k with
  | zero => intro body st; cases body <;> simp [runSteps]
  | succ k ih =>
    intro body st
    cases body with
    | nil => simp [runSteps]
    | cons inst rest =>
      cases hri : (resVal inst).getType.isIntegerTy <;>
        simp [runSteps, ih, registerInteger_pool, processOperandsAll_state_pool,
          hri, resVal_setOperands, List.filter_append, List.filter_cons,
          List.append_assoc]

lemma runSteps_zero (body : List Instruction) (st : ObfState) :
    runSteps body st 0 = ⟨[], false, st⟩ := by
  cases body <;> rfl

/-- One more step of the body loop only appends to the emitted block. -/
lemma runSteps_block_prefix_succ :
    ∀ (body : List Instruction) (st : ObfState) (k : Nat),
      (runSteps body st k).block <+: (runSteps body st (k + 1)).block := by
  intro body
  induction body with
  | nil => intro st k; cases k <;> exact List.nil_prefix
  | cons inst rest ih =>
    intro st k
    cases k with
    | zero =>
      rw [runSteps_zero]
      exact List.nil_prefix
    | succ k =>
      simp only [runSteps]
      obtain ⟨t, ht⟩ :=
        ih (registerInteger (resVal inst) (processOperandsAll inst st).state) k
      exact ⟨t, by simp [List.append_assoc, ht]⟩

lemma runSteps_block_prefix_le :
    ∀ (body : List Instruction) (st : ObfState) (k j : Nat), k ≤ j →
      (runSteps body st k).block <+: (runSteps body st j).block := by
  intro body st k j h
  induction j, h using Nat.le_induction with
  | base => exact List.prefix_rfl
  | succ n hmn ih => exact ih.trans (runSteps_block_prefix_succ body st n)

lemma runSteps_saturate :
    ∀ (body : List Instruction) (st : ObfState) (k : Nat), body.length ≤ k →
      runSteps body st k = runSteps body st body.length := by
  intro body
  induction body with
  | nil => intro st k _; cases k <;> rfl
  | cons inst rest ih =>
    intro st k hk
    cases k with
    | zero => simp at hk
    | succ k =>
      simp only [runSteps, List.length_cons]
      rw [ih _ k (by simpa using hk)]

/-- The body loop is the ghost decomposition run to the end. -/
lemma runOnBody_eq_runSteps :
    ∀ (body : List Instruction) (st : ObfState),
      runOnBody body st = runSteps body st body.length := by
  intro body
  induction body with
  | nil => intro st; rfl
  | cons inst rest ih =>
    intro st
    simp only [runOnBody, runSteps, List.length_cons]
    rw [ih]

lemma runSteps_block_prefix_runOnBody :
    ∀ (body : List Instruction) (st : ObfState) (k : Nat),
      (runSteps body st k).block <+: (runOnBody body st).block := by
  intro body st k
  rw [runOnBody_eq_runSteps]
  by_cases h : k ≤ body.length
  · exact runSteps_block_prefix_le body st k _ h
  · rw [runSteps_saturate body st k (by omega)]

/-- C5. At the moment `replaceZero` is invoked for an operand of
instruction `X`, every pool value is defined strictly before `X`: any value
the synthesizer or operand loop adds to the pool is the result of an
instruction it inserted before `X`; the body loop registers `X`'s own result
only after all of `X`'s operands have been processed; and starting from a
pool whose values are all defined by instructions `D` already emitted before
the remaining body, after `k` further steps every pool value is defined by
an instruction of `D` or of the emitted block, which is a prefix of the
final output of the body loop. -/
theorem pool_defined_before :
    (∀ (v : Value) (st : ObfState) (u : Value),
        u ∈ (replaceZero v st).state.integerVect →
        u ∈ st.integerVect ∨ definesIn (replaceZero v st).inserted u) ∧
    (∀ (ops : List Value) (st : ObfState) (u : Value),
        u ∈ (processOps ops st).state.integerVect →
        u ∈ st.integerVect ∨ definesIn (processOps ops st).inserted u) ∧
    (∀ (inst : Instruction) (rest : List Instruction) (st : ObfState),
        runOnBody (inst :: rest) st =
          ⟨(processOperandsAll inst st).inserted ++
              { inst with operands := (processOperandsAll inst st).newOps } ::
                (runOnBody rest (registerInteger (resVal inst)
                    (processOperandsAll inst st).state)).block,
            (processOperandsAll inst st).modified ||
              (runOnBody rest (registerInteger (resVal inst)
                  (processOperandsAll inst st).state)).modified,
            (runOnBody rest (registerInteger (resVal inst)
                (processOperandsAll inst st).state)).state⟩) ∧
    (∀ (body : List Instruction) (st : ObfState) (k : Nat)
        (D : List Instruction),
        (∀ v ∈ st.integerVect, definesIn D v) →
        ∀ v ∈ (runSteps body st k).state.integerVect,
          definesIn (D ++ (runSteps body st k).block) v) ∧
    (∀ (body : List Instruction) (st : ObfState) (k : Nat),
        (runSteps body st k).block <+: (runOnBody body st).block) := by
  refine ⟨?_, ?_, ?_, ?_, runSteps_block_prefix_runOnBody⟩
  · intro v st u hu
    rw [replaceZero_state_pool] at hu
    rcases List.mem_append.1 hu with hu | hu
    · exact Or.inl hu
    · obtain ⟨d, hd, rfl⟩ := List.mem_map.1 (List.mem_of_mem_filter hu)
      exact Or.inr ⟨d, hd, rfl⟩
  · intro ops st u hu
    rw [processOps_state_pool] at hu
    rcases List.mem_append.1 hu with hu | hu
    · exact Or.inl hu
    · obtain ⟨d, hd, rfl⟩ := List.mem_map.1 (List.mem_of_mem_filter hu)
      exact Or.inr ⟨d, hd, rfl⟩
  · intro inst rest st
    rfl
  · intro body st k D hD v hv
    rw [runSteps_state_pool] at hv
    rcases List.mem_append.1 hv with hv | hv
    · obtain ⟨d, hd, he⟩ := hD v hv
      exact ⟨d, List.mem_append_left _ hd, he⟩
    · obtain ⟨d, hd, rfl⟩ := List.mem_map.1 (List.mem_of_mem_filter hv)
      exact ⟨d, List.mem_append_right _ hd, rfl⟩

/-- Witness for C5 at a concrete one-element pool. -/
theorem pool_defined_before_witness :
    Value.reg 0 (Ty.int 32) ∈
        (replaceZero defaultVal samplePoolState).state.integerVect ∧
      (Value.reg 0 (Ty.int 32) ∈ samplePoolState.integerVect ∨
        definesIn (replaceZero defaultVal samplePoolState).inserted
          (Value.reg 0 (Ty.int 32))) :=
  ⟨by decide,
   pool_defined_before.1 defaultVal samplePoolState
     (Value.reg 0 (Ty.int 32)) (by decide)⟩

/-- C6. During one invocation the pool only grows: the synthesizer
extends the pool by exactly the integer-typed results of the instructions it
inserted (so every value it creates is registered before it returns), after
`k` steps the pool is the incoming pool extended by exactly the
integer-typed results of the instructions emitted so far, and the pool size
is non-decreasing from each step to the next. -/
theorem pool_growth :
    (∀ (v : Value) (st : ObfState),
        (replaceZero v st).state.integerVect =
          st.integerVect ++
            ((replaceZero v st).inserted.map resVal).filter
              (fun u => u.getType.isIntegerTy)) ∧
    (∀ (body : List Instruction) (st : ObfState) (k : Nat),
        (runSteps body st k).state.integerVect =
          st.integerVect ++
            ((runSteps body st k).block.map resVal).filter
              (fun u => u.getType.isIntegerTy)) ∧
    (∀ (body : List Instruction) (st : ObfState) (k : Nat),
        (runSteps body st k).state.integerVect.length ≤
          (runSteps body st (k + 1)).state.integerVect.length) := by
  refine ⟨replaceZero_state_pool, fun body st k => runSteps_state_pool k body st, ?_⟩
  intro body st k
  rw [runSteps_state_pool, runSteps_state_pool]
  simp only [List.length_append]
  exact Nat.add_le_add_left
    (((runSteps_block_prefix_succ body st k).map resVal).filter _).length_le _

/-- C7. The driver starts iterating after the leading PHI nodes: the
output block is the untouched leading PHI run followed by the output of the
body loop on the rest, so every leading PHI instruction appears unchanged in
the output and is never an obfuscation target. -/
theorem leading_phis_untouched :
    (∀ (bb : List Instruction) (st : ObfState),
        (runOnBasicBlock bb st).block =
          bb.takeWhile isPhi ++
            (runOnBody (bb.dropWhile isPhi)
              { st with integerVect := [] }).block) ∧
    ∀ (bb : List Instruction) (st : ObfState) (inst : Instruction),
      inst ∈ bb.takeWhile isPhi → inst ∈ (runOnBasicBlock bb st).block := by
  refine ⟨fun bb st => rfl, ?_⟩
  intro bb st inst hmem
  exact List.mem_append_left _ hmem

/-- Witness for C7: a leading PHI with a zero operand survives unchanged. -/
theorem leading_phis_untouched_witness :
    phiInstr ∈ [phiInstr, callInstr].takeWhile isPhi ∧
    phiInstr ∈ (runOnBasicBlock [phiInstr, callInstr] sampleState).block :=
  ⟨by decide,
   leading_phis_untouched.2 [phiInstr, callInstr] sampleState phiInstr
     (by decide)⟩

/-! Section: Frame lemmas for C8 -/

lemma processOps_newOps_length :
    ∀ (ops : List Value) (st : ObfState),
      (processOps ops st).newOps.length = ops.length := by
  intro ops
  induction ops with
  | nil => intro st; simp [processOps]
  | cons v rest ih =>
    intro st
    cases hv : isValidCandidateOperand v with
    | none => simp [processOps, hv, ih]
    | some c =>
      cases hr : (replaceZero v st).result with
      | none => simp [processOps, hv, hr, ih]
      | some nv => simp [processOps, hv, hr, ih]

lemma processOps_getD :
    ∀ (ops : List Value) (st : ObfState) (j : Nat),
      (processOps ops st).newOps.getD j defaultVal = ops.getD j defaultVal ∨
        (∃ c, isValidCandidateOperand (ops.getD j defaultVal) = some c ∧
          ((processOps ops st).newOps.getD j defaultVal).getType =
            (ops.getD j defaultVal).getType) := by
  intro ops
  induction ops with
  | nil => intro st j; left; simp [processOps]
  | cons v rest ih =>
    intro st j
    cases hv : isValidCandidateOperand v with
    | none =>
      cases j with
      | zero => left; simp [processOps, hv]
      | succ j => simpa [processOps, hv] using ih st j
    | some c =>
      cases hr : (replaceZero v st).result with
      | none =>
        cases j with
        | zero => left; simp [processOps, hv, hr]
        | succ j => simpa [processOps, hv, hr] using ih (replaceZero v st).state j
      | some nv =>
        cases j with
        | zero =>
          right
          refine ⟨c, by simpa using hv, ?_⟩
          simpa [processOps, hv, hr] using replaceZero_some_type v st nv hr
        | succ j => simpa [processOps, hv, hr] using ih (replaceZero v st).state j

/-- C8. Replacement is frame-preserving: the operand loop returns an
operand list of unchanged length; the rewritten instruction keeps its result
register, result type and operand count; a successful replacement value has
exactly the type of the original operand; and each operand position is
either untouched or holds a type-preserving replacement of a matched zero
constant. -/
theorem replacement_frame :
    (∀ (ops : List Value) (st : ObfState),
        (processOps ops st).newOps.length = ops.length) ∧
    (∀ (inst : Instruction) (st : ObfState),
        ({ inst with operands := (processOperandsAll inst st).newOps }
            : Instruction).result = inst.result ∧
        ({ inst with operands := (processOperandsAll inst st).newOps }
            : Instruction).retTy = inst.retTy ∧
        ({ inst with operands := (processOperandsAll inst st).newOps }
            : Instruction).operands.length = inst.operands.length) ∧
    (∀ (v : Value) (st : ObfState) (nv : Value),
        (replaceZero v st).result = some nv → nv.getType = v.getType) ∧
    (∀ (ops : List Value) (st : ObfState) (j : Nat),
        (processOps ops st).newOps.getD j defaultVal = ops.getD j defaultVal ∨
          (∃ c, isValidCandidateOperand (ops.getD j defaultVal) = some c ∧
            ((processOps ops st).newOps.getD j defaultVal).getType =
              (ops.getD j defaultVal).getType)) := by
  refine ⟨processOps_newOps_length, ?_, replaceZero_some_type, processOps_getD⟩
  intro inst st
  refine ⟨rfl, rfl, ?_⟩
  simp only [processOperandsAll]
  split
  · exact processOps_newOps_length inst.operands st
  · rfl

/-- Witness for C8: the replacement built over a one-element pool has the
32-bit integer type of the replaced zero. -/
theorem replacement_frame_witness :
    (replaceZero defaultVal samplePoolState).result =
        some (Value.reg 111 (Ty.int 32)) ∧
      (Value.reg 111 (Ty.int 32)).getType = defaultVal.getType :=
  ⟨by decide,
   replacement_frame.2.2.1 defaultVal samplePoolState
     (Value.reg 111 (Ty.int 32)) (by decide)⟩

/-! Section: Modification lemmas for C9 -/

lemma processOps_not_modified :
    ∀ (ops : List Value) (st : ObfState),
      (processOps ops st).modified = false →
      (processOps ops st).newOps = ops ∧ (processOps ops st).inserted = [] := by
  intro ops
  induction ops with
  | nil => intro st _; simp [processOps]
  | cons v rest ih =>
    intro st h
    cases hv : isValidCandidateOperand v with
    | none =>
      simp only [processOps, hv] at h ⊢
      have := ih st h
      simp [this.1, this.2]
    | some c =>
      cases hr : (replaceZero v st).result with
      | none =>
        have h0 := replaceZero_none v st hr
        simp only [processOps, hv, hr, h0] at h ⊢
        have := ih st h
        simp [this.1, this.2]
      | some nv => simp [processOps, hv, hr] at h

lemma processOps_modified_inserted :
    ∀ (ops : List Value) (st : ObfState),
      (processOps ops st).modified = true →
      (processOps ops st).inserted ≠ [] := by
  intro ops
  induction ops with
  | nil => intro st h; simp [processOps] at h
  | cons v rest ih =>
    intro st h
    cases hv : isValidCandidateOperand v with
    | none =>
      simp only [processOps, hv] at h ⊢
      exact ih st h
    | some c =>
      cases hr : (replaceZero v st).result with
      | none =>
        simp only [processOps, hv, hr] at h ⊢
        intro hnil
        exact ih (replaceZero v st).state h
          (List.append_eq_nil.1 hnil).2
      | some nv =>
        simp only [processOps, hv, hr]
        intro hnil
        exact replaceZero_some_inserted v st nv hr
          (List.append_eq_nil.1 hnil).1

lemma runOnBody_not_modified :
    ∀ (body : List Instruction) (st : ObfState),
      (runOnBody body st).modified = false →
      (runOnBody body st).block = body := by
  intro body
  induction body with
  | nil => intro st _; rfl
  | cons inst rest ih =>
    intro st h
    simp only [runOnBody, Bool.or_eq_false_iff] at h ⊢
    obtain ⟨hp, hr⟩ := h
    have hall : (processOperandsAll inst st).newOps = inst.operands ∧
        (processOperandsAll inst st).inserted = [] := by
      revert hp
      simp only [processOperandsAll]
      split
      · intro hp
        exact processOps_not_modified inst.operands st hp
      · intro _
        exact ⟨rfl, rfl⟩
    rw [hall.1, hall.2, ih _ hr]
    simp

lemma runOnBody_length_ge :
    ∀ (body : List Instruction) (st : ObfState),
      body.length ≤ (runOnBody body st).block.length := by
  intro body
  induction body with
  | nil => intro st; simp [runOnBody]
  | cons inst rest ih =>
    intro st
    simp only [runOnBody, List.length_cons, List.length_append]
    have := ih (registerInteger (resVal inst) (processOperandsAll inst st).state)
    omega

lemma runOnBody_modified_length :
    ∀ (body : List Instruction) (st : ObfState),
      (runOnBody body st).modified = true →
      body.length < (runOnBody body st).block.length := by
  intro body
  induction body with
  | nil => intro st h; simp [runOnBody] at h
  | cons inst rest ih =>
    intro st h
    simp only [runOnBody, Bool.or_eq_true] at h ⊢
    simp only [List.length_cons, List.length_append, List.length_cons]
    have hrest := runOnBody_length_ge rest
      (registerInteger (resVal inst) (processOperandsAll inst st).state)
    rcases h with hp | hr
    · have hne : (processOperandsAll inst st).inserted ≠ [] := by
        revert hp
        simp only [processOperandsAll]
        split
        · intro hp
          exact processOps_modified_inserted inst.operands st hp
        · intro hp
          simp at hp
      have : 0 < (processOperandsAll inst st).inserted.length :=
        List.length_pos.2 hne
      omega
    · have := ih _ hr
      omega

/-- C9. The driver is a total function of its input returning a boolean,
and that boolean is `false` exactly when the block came through unchanged:
`modified` is `true` if and only if at least one operand was overwritten
(which always inserts the synthesized chain and so changes the block). -/
theorem modified_iff_block_changed :
    ∀ (bb : List Instruction) (st : ObfState),
      (runOnBasicBlock bb st).modified = false ↔
        (runOnBasicBlock bb st).block = bb := by
  intro bb st
  constructor
  · intro h
    simp only [runOnBasicBlock] at h ⊢
    rw [runOnBody_not_modified _ _ h]
    exact List.takeWhile_append_dropWhile isPhi bb
  · intro h
    by_contra hm
    have hm' : (runOnBody (bb.dropWhile isPhi)
        { st with integerVect := [] }).modified = true := by
      revert hm
      simp only [runOnBasicBlock]
      cases (runOnBody (bb.dropWhile isPhi)
        { st with integerVect := [] }).modified <;> simp
    have hlt := runOnBody_modified_length _ _ hm'
    have hlenbb : (bb.takeWhile isPhi).length + (bb.dropWhile isPhi).length =
        bb.length := by
      rw [← List.length_append, List.takeWhile_append_dropWhile]
    have hblock : (runOnBasicBlock bb st).block.length = bb.length := by
      rw [h]
    simp only [runOnBasicBlock, List.length_append] at hblock
    omega

/-- C10. Whenever `replaceZero` passes its emptiness guard, the two
drawn indices lie in `[0, pool size - 1]`, so both pool accesses are in
bounds and the out-of-range branch of `IntegerVect.at` is unreachable; and
the synthesis then always produces a replacement. -/
theorem indices_in_bounds :
    ∀ (vrep : Value) (st : ObfState), ¬st.integerVect.length < 1 →
      (uniformInt 0 (st.integerVect.length - 1) st).1 <
          st.integerVect.length ∧
        (uniformInt 0 (st.integerVect.length - 1)
            (uniformInt 0 (st.integerVect.length - 1) st).2).1 <
          st.integerVect.length ∧
        (replaceZero vrep st).result.isSome = true := by
  intro vrep st h
  have key : ∀ st' : ObfState,
      (uniformInt 0 (st.integerVect.length - 1) st').1 <
        st.integerVect.length := by
    intro st'
    simp only [uniformInt, draw]
    have := Nat.mod_lt (st'.gen st'.cursor)
      (show 0 < st.integerVect.length - 1 - 0 + 1 by omega)
    omega
  refine ⟨key st, key _, ?_⟩
  simp [replaceZero, h]

/-- Witness for C10 at a concrete one-element pool. -/
theorem indices_in_bounds_witness :
    (uniformInt 0 (samplePoolState.integerVect.length - 1)
        samplePoolState).1 < samplePoolState.integerVect.length ∧
      (replaceZero defaultVal samplePoolState).result.isSome = true :=
  ⟨(indices_in_bounds defaultVal samplePoolState (by decide)).1,
   (indices_in_bounds defaultVal samplePoolState (by decide)).2.2⟩

end ObfuscateZero
